import Mathlib

/-!
Shallow embedding of the UTXO runtime module (src/runtime/src/utxo.rs).

Machine integers are modelled as `Nat` with explicit checked arithmetic at
the relevant widths (`u128` for values, `u64` for output indices and the
transaction priority field).  The storage map `UtxoStore : H256 => Option
TransactionOutput` is modelled as an association list with overwrite-insert
semantics; the scalar `RewardTotal` register is a field of the ledger state.

The two external collaborators — the Blake2-256 hash and the sr25519
signature verifier — are parameters of every operation (`H` and `verify`):
the code treats them as opaque deterministic functions.  SCALE encodings are
modelled as token lists (`List Nat`) that preserve the structure of the real
byte encoding (length prefixes, field order, fixed-width fields), which is
all the code depends on.

The `unwrap` panic in `disperse_reward` is modelled as an `Except.error`
carrying the message the source passes to `ok_or`.  Dispatch in this
(pre-transactional) runtime era does not roll back storage writes on error,
so stateful entry points return the final state together with an optional
error instead of discarding writes on failure.
-/

/-- Transaction input: a reference to an unspent output and a signature
(`out_point: H256`, `sig_script: H512`), both modelled as `Nat`. -/
structure TransactionInput where
  out_point : Nat
  sig_script : Nat
deriving DecidableEq

/-- Transaction output: a value (`u128`) and an owner public key (`H256`). -/
structure TransactionOutput where
  value : Nat
  pub_key : Nat
deriving DecidableEq

/-- A transaction: ordered inputs and outputs. -/
structure Transaction where
  inputs : List TransactionInput
  outputs : List TransactionOutput
deriving DecidableEq

/-- The result type of `validate_transaction`
(`sp_runtime::transaction_validity::ValidTransaction`). -/
structure ValidTransaction where
  requires : List Nat
  provides : List Nat
  priority : Nat
  longevity : Nat
  propagate : Bool
deriving DecidableEq

/-- The on-chain state touched by the module: the `UtxoStore` map and the
`RewardTotal` scalar. -/
structure LedgerState where
  utxoStore : List (Nat × TransactionOutput)
  rewardTotal : Nat
deriving DecidableEq

/-- `u128::checked_add`. -/
def checkedAdd128 (a b : Nat) : Option Nat :=
  if a + b < 2 ^ 128 then some (a + b) else none

/-- `u64::checked_add`. -/
def checkedAdd64 (a b : Nat) : Option Nat :=
  if a + b < 2 ^ 64 then some (a + b) else none

/-- `u128::checked_sub`. -/
def checkedSub128 (a b : Nat) : Option Nat :=
  if b ≤ a then some (a - b) else none

/-- `u128::checked_div`. -/
def checkedDiv128 (a b : Nat) : Option Nat :=
  if b = 0 then none else some (a / b)

/-- `StorageMap::get`: first entry with the given key. -/
def storeGet (m : List (Nat × TransactionOutput)) (k : Nat) : Option TransactionOutput :=
  (m.find? (fun p => p.1 == k)).map (fun p => p.2)

/-- `StorageMap::contains_key`. -/
def storeContains (m : List (Nat × TransactionOutput)) (k : Nat) : Bool :=
  (storeGet m k).isSome

/-- `StorageMap::remove`. -/
def storeRemove (m : List (Nat × TransactionOutput)) (k : Nat) :
    List (Nat × TransactionOutput) :=
  m.filter (fun p => p.1 != k)

/-- `StorageMap::insert` (overwrite semantics). -/
def storeInsert (m : List (Nat × TransactionOutput)) (k : Nat) (v : TransactionOutput) :
    List (Nat × TransactionOutput) :=
  (k, v) :: storeRemove m k

/-- SCALE encoding of a `TransactionInput` (two fixed-width fields). -/
def encodeInput (i : TransactionInput) : List Nat :=
  [i.out_point, i.sig_script]

/-- SCALE encoding of a `TransactionOutput` (two fixed-width fields). -/
def encodeOutput (o : TransactionOutput) : List Nat :=
  [o.value, o.pub_key]

/-- SCALE encoding of a `Transaction`: length-prefixed input vector followed
by length-prefixed output vector. -/
def encodeTransaction (tx : Transaction) : List Nat :=
  (tx.inputs.length :: (tx.inputs.map encodeInput).flatten)
    ++ (tx.outputs.length :: (tx.outputs.map encodeOutput).flatten)

/-- SCALE encoding of the pair `(&transaction.encode(), index: u64)` that is
hashed to obtain an output id. -/
def encodePair (bs : List Nat) (idx : Nat) : List Nat :=
  bs.length :: bs ++ [idx]

/-- SCALE encoding of the pair `(TransactionOutput, block_number: u64)` that
is hashed to obtain a minted reward output id. -/
def encodeOutputHeight (o : TransactionOutput) (bn : Nat) : List Nat :=
  encodeOutput o ++ [bn]

/-- `get_simple_transaction`: the signing payload — the transaction with
every input signature zeroed, then encoded. -/
def get_simple_transaction (tx : Transaction) : List Nat :=
  encodeTransaction
    { inputs := tx.inputs.map (fun i => { out_point := i.out_point, sig_script := 0 }),
      outputs := tx.outputs }

/-- The input loop of `validate_transaction`: for each input, look up its
`out_point`; when present, verify the signature over the signing payload and
add the referenced value to the running total with checked `u128` addition;
when absent, record the `out_point` in the missing list. -/
def processInputs (verify : Nat → List Nat → Nat → Bool)
    (store : List (Nat × TransactionOutput)) (simple : List Nat) :
    List TransactionInput → Nat → List Nat → Except String (Nat × List Nat)
  | [], total, missing => .ok (total, missing)
  | inp :: rest, total, missing =>
    match storeGet store inp.out_point with
    | some input_utxo =>
      if verify inp.sig_script simple input_utxo.pub_key then
        match checkedAdd128 total input_utxo.value with
        | some t => processInputs verify store simple rest t missing
        | none => .error ("input value overflow")
      else .error ("signature must be valid")
    | none => processInputs verify store simple rest total (missing ++ [inp.out_point])

/-- The output loop of `validate_transaction`: for each output, reject a zero
value, compute its id as `hash(tx.encode(), index)`, step the `u64` index
with checked addition, reject an id already present in the store, add the
value to the running total with checked `u128` addition, and record the id. -/
def processOutputs (H : List Nat → Nat)
    (store : List (Nat × TransactionOutput)) (txe : List Nat) :
    List TransactionOutput → Nat → Nat → List Nat → Except String (Nat × List Nat)
  | [], _, total, news => .ok (total, news)
  | o :: rest, index, total, news =>
    if o.value > 0 then
      match checkedAdd64 index 1 with
      | none => .error ("output index overflow")
      | some index1 =>
        if storeContains store (H (encodePair txe index)) then
          .error ("output already exists")
        else
          match checkedAdd128 total o.value with
          | some t =>
            processOutputs H store txe rest index1 t (news ++ [H (encodePair txe index)])
          | none => .error ("output value overflow")
    else .error ("output value must be nonzero")

/-- `validate_transaction`: structural checks, duplicate checks (on full
`(out_point, sig_script)` / `(value, pub_key)` pairs via a `BTreeMap`,
modelled by `List.dedup`), the input and output loops, and — when no input
is missing — the conservation check and reward computation.  The `u128`
reward is stored into the `u64` `priority` field (`reward as u64`). -/
def validate_transaction (H : List Nat → Nat) (verify : Nat → List Nat → Nat → Bool)
    (s : LedgerState) (tx : Transaction) : Except String ValidTransaction :=
  if tx.inputs.isEmpty then .error ("no inputs")
  else if tx.outputs.isEmpty then .error ("no outputs")
  else if tx.inputs.dedup.length ≠ tx.inputs.length then
    .error ("each input must only be used once")
  else if tx.outputs.dedup.length ≠ tx.outputs.length then
    .error ("each output must only be used once")
  else
    match processInputs verify s.utxoStore (get_simple_transaction tx) tx.inputs 0 [] with
    | .error e => .error e
    | .ok (total_input, missing_utxos) =>
      match processOutputs H s.utxoStore (encodeTransaction tx) tx.outputs 0 0 [] with
      | .error e => .error e
      | .ok (total_output, new_utxos) =>
        if missing_utxos.isEmpty then
          if total_input ≥ total_output then
            match checkedSub128 total_input total_output with
            | some reward =>
              .ok { requires := missing_utxos, provides := new_utxos,
                    priority := reward % 2 ^ 64, longevity := 2 ^ 64 - 1,
                    propagate := true }
            | none => .error ("reward underflow")
          else .error ("output value must not excceed input value")
        else
          .ok { requires := missing_utxos, provides := new_utxos,
                priority := 0, longevity := 2 ^ 64 - 1, propagate := true }

/-- The output-insertion loop of `update_storage`: recompute each output id
as `hash(tx.encode(), index)` with a checked `u64` index step and insert the
output at that id.  The index-overflow error is returned after the writes
already performed (storage writes are not rolled back). -/
def insertLoop (H : List Nat → Nat) (tx : Transaction) :
    LedgerState → Nat → List TransactionOutput → LedgerState × Option String
  | s, _, [] => (s, none)
  | s, index, o :: rest =>
    let h := H (encodePair (encodeTransaction tx) index)
    match checkedAdd64 index 1 with
    | none => (s, some ("output index overflow"))
    | some index1 =>
      insertLoop H tx { s with utxoStore := storeInsert s.utxoStore h o } index1 rest

/-- `update_storage`: add the reward to `RewardTotal` with checked `u128`
addition (aborting before any write on overflow), remove every input's
referenced output, then insert every output at its recomputed id. -/
def update_storage (H : List Nat → Nat) (s : LedgerState) (tx : Transaction)
    (reward : Nat) : LedgerState × Option String :=
  match checkedAdd128 s.rewardTotal reward with
  | none => (s, some ("reward overflow"))
  | some new_total =>
    let s1 : LedgerState :=
      { utxoStore := tx.inputs.foldl (fun m i => storeRemove m i.out_point) s.utxoStore,
        rewardTotal := new_total }
    insertLoop H tx s1 0 tx.outputs

/-- `spend`: validate, then commit with `valid_transaction.priority as Value`
as the reward.  A validation error is surfaced with the state untouched;
`update_storage` runs on every `Ok` validation result, whether or not
`requires` is empty. -/
def spend (H : List Nat → Nat) (verify : Nat → List Nat → Nat → Bool)
    (s : LedgerState) (tx : Transaction) : LedgerState × Option String :=
  match validate_transaction H verify s tx with
  | .error e => (s, some e)
  | .ok vt => update_storage H s tx vt.priority

/-- The minting loop of `disperse_reward`: for each authority, build the
share output, compute its id as `hash((output, block_number))`, and insert
it unless that id is already taken (in which case it is skipped). -/
def mintLoop (H : List Nat → Nat) (share bn : Nat) :
    List Nat → LedgerState → LedgerState
  | [], s => s
  | a :: rest, s =>
    if storeContains s.utxoStore (H (encodeOutputHeight { value := share, pub_key := a } bn))
    then mintLoop H share bn rest s
    else
      mintLoop H share bn rest
        (LedgerState.mk
          (storeInsert s.utxoStore
            (H (encodeOutputHeight { value := share, pub_key := a } bn))
            { value := share, pub_key := a })
          s.rewardTotal)

/-- `disperse_reward`: take (drain) `RewardTotal`, divide by the authority
count with checked division — the `unwrap` on the `None` result for an empty
authority set is modelled as the error "No authorities" —, return early when
the share is zero (discarding the drained reward), otherwise write the
remainder back and mint one share output per authority. -/
def disperse_reward (H : List Nat → Nat) (authorities : List Nat) (bn : Nat)
    (s : LedgerState) : Except String LedgerState :=
  let reward := s.rewardTotal
  let s1 : LedgerState := { utxoStore := s.utxoStore, rewardTotal := 0 }
  match checkedDiv128 reward authorities.length with
  | none => .error ("No authorities")
  | some share_value =>
    if share_value = 0 then .ok s1
    else
      match checkedSub128 reward (share_value * authorities.length) with
      | none => .error ("Sub underflow")
      | some remainder =>
        .ok (mintLoop H share_value bn authorities
              { utxoStore := s1.utxoStore, rewardTotal := remainder })

/-- Genesis build of `UtxoStore`: each configured output is inserted under
`hash_of(&u)` — the hash of the output content alone. -/
def initLedger (H : List Nat → Nat) (genesis : List TransactionOutput) : LedgerState :=
  { utxoStore := genesis.foldl (fun m u => storeInsert m (H (encodeOutput u)) u) [],
    rewardTotal := 0 }

/-- Specification-side list of output ids from start index `i`:
`hash(txe, i + j)` for the j-th remaining output. -/
def idsFromE (H : List Nat → Nat) (txe : List Nat) (i : Nat)
    (l : List TransactionOutput) : List Nat :=
  (List.range l.length).map (fun j => H (encodePair txe (i + j)))

/-- Specification-side output ids of a transaction: the id of output `i` is
`hash(full transaction encoding, i)`. -/
def outputIds (H : List Nat → Nat) (tx : Transaction) : List Nat :=
  idsFromE H (encodeTransaction tx) 0 tx.outputs

/-- Specification-side bulk insertion: insert output `i` at the `i`-th id. -/
def insertPairs (m : List (Nat × TransactionOutput)) (ids : List Nat)
    (os : List TransactionOutput) : List (Nat × TransactionOutput) :=
  (ids.zip os).foldl (fun m p => storeInsert m p.1 p.2) m

/-- Specification-side id of the reward output minted for authority `a`. -/
def mintId (H : List Nat → Nat) (share bn a : Nat) : Nat :=
  H (encodeOutputHeight { value := share, pub_key := a } bn)

/-- An injective stand-in for the opaque 256-bit hash, used to evaluate the
model on concrete inputs: iterated Cantor pairing over the token list. -/
def hashStub (l : List Nat) : Nat :=
  l.foldl (fun a n => (a + n) * (a + n + 1) / 2 + n + 1) 0

/-- A signature verifier that accepts everything, used to evaluate the model
on concrete inputs where all signatures are assumed valid. -/
def vTrue : Nat → List Nat → Nat → Bool :=
  fun _ _ _ => true

/-! ## Helper lemmas -/

theorem find?_filter_ne (m : List (Nat × TransactionOutput)) (k k2 : Nat) (h : k2 ≠ k) :
    (m.filter (fun p => p.1 != k)).find? (fun p => p.1 == k2)
      = m.find? (fun p => p.1 == k2) := by
  induction m with
  | nil => rfl
  | cons q rest ih =>
    by_cases hq : q.1 = k
    · have h1 : (q.1 != k) = false := by simp [hq]
      have h2 : (q.1 == k2) = false := by simp [hq, Ne.symm h]
      simp [List.filter_cons, h1, List.find?_cons, h2, ih]
    · have h1 : (q.1 != k) = true := by simp [hq]
      by_cases hq2 : q.1 = k2
      · simp [List.filter_cons, h1, List.find?_cons, hq2, h]
      · have h2 : (q.1 == k2) = false := by simp [hq2]
        simp [List.filter_cons, h1, List.find?_cons, h2, ih]

theorem storeGet_insert (m : List (Nat × TransactionOutput)) (k : Nat)
    (v : TransactionOutput) (k2 : Nat) :
    storeGet (storeInsert m k v) k2 = if k2 = k then some v else storeGet m k2 := by
  by_cases hk : k2 = k
  · subst hk
    simp [storeGet, storeInsert, List.find?_cons]
  · have h2 : (k == k2) = false := by simp [Ne.symm hk]
    simp [storeGet, storeInsert, storeRemove, List.find?_cons, h2,
      find?_filter_ne m k k2 hk, hk]

theorem dedup_length_eq_iff {α : Type} [DecidableEq α] (l : List α) :
    l.dedup.length = l.length ↔ l.Nodup := by
  constructor
  · intro h
    have hsub : List.Sublist l.dedup l := List.dedup_sublist l
    have he : l.dedup = l := hsub.eq_of_length h
    rw [← he]
    exact List.nodup_dedup l
  · intro h
    rw [List.dedup_eq_self.2 h]

theorem idsFromE_nil {H : List Nat → Nat} (txe : List Nat) (i : Nat) :
    idsFromE H txe i [] = [] := rfl

theorem idsFromE_cons {H : List Nat → Nat} (txe : List Nat) (i : Nat)
    (o : TransactionOutput) (rest : List TransactionOutput) :
    idsFromE H txe i (o :: rest)
      = H (encodePair txe i) :: idsFromE H txe (i + 1) rest := by
  simp only [idsFromE, List.length_cons, List.range_succ_eq_map, List.map_cons,
    List.map_map]
  congr 1
  apply List.map_congr_left
  intro j hj
  show H (encodePair txe (i + (j + 1))) = H (encodePair txe (i + 1 + j))
  have h3 : i + (j + 1) = i + 1 + j := by omega
  rw [h3]

theorem insertPairs_nil (m : List (Nat × TransactionOutput))
    (os : List TransactionOutput) : insertPairs m [] os = m := rfl

theorem insertPairs_cons (m : List (Nat × TransactionOutput)) (a : Nat)
    (ids : List Nat) (o : TransactionOutput) (os : List TransactionOutput) :
    insertPairs m (a :: ids) (o :: os) = insertPairs (storeInsert m a o) ids os := rfl

theorem insertLoop_rewardTotal {H : List Nat → Nat} (tx : Transaction) :
    ∀ (l : List TransactionOutput) (i : Nat) (s : LedgerState),
      (insertLoop H tx s i l).1.rewardTotal = s.rewardTotal := by
  intro l
  induction l with
  | nil => intro i s; rfl
  | cons o rest ih =>
    intro i s
    simp only [insertLoop]
    by_cases hlt : i + 1 < 2 ^ 64
    · simp only [checkedAdd64, if_pos hlt]
      exact ih (i + 1) _
    · simp only [checkedAdd64, if_neg hlt]

theorem insertLoop_ok {H : List Nat → Nat} (tx : Transaction) :
    ∀ (l : List TransactionOutput) (i : Nat) (s : LedgerState),
      i + l.length < 2 ^ 64 →
      insertLoop H tx s i l
        = ({ utxoStore := insertPairs s.utxoStore
               (idsFromE H (encodeTransaction tx) i l) l,
             rewardTotal := s.rewardTotal }, none) := by
  intro l
  induction l with
  | nil => intro i s _; rfl
  | cons o rest ih =>
    intro i s hb
    have hlt : i + 1 < 2 ^ 64 := by
      simp only [List.length_cons] at hb
      omega
    simp only [insertLoop, checkedAdd64, if_pos hlt]
    rw [ih (i + 1) _ (by simp only [List.length_cons] at hb; omega)]
    rw [idsFromE_cons, insertPairs_cons]

theorem insertLoop_error {H : List Nat → Nat} (tx : Transaction) :
    ∀ (l : List TransactionOutput) (i : Nat) (s : LedgerState),
      l ≠ [] → 2 ^ 64 ≤ i + l.length →
      (insertLoop H tx s i l).2 = some ("output index overflow") := by
  intro l
  induction l with
  | nil => intro i s hne _; exact absurd rfl hne
  | cons o rest ih =>
    intro i s _ hb
    simp only [insertLoop]
    by_cases hlt : i + 1 < 2 ^ 64
    · simp only [checkedAdd64, if_pos hlt]
      have hrest : rest ≠ [] := by
        intro he
        subst he
        simp only [List.length_cons, List.length_nil] at hb
        omega
      exact ih (i + 1) _ hrest (by simp only [List.length_cons] at hb; omega)
    · simp only [checkedAdd64, if_neg hlt]

theorem checkedAdd64_some {a b c : Nat} (h : checkedAdd64 a b = some c) :
    c = a + b ∧ a + b < 2 ^ 64 := by
  unfold checkedAdd64 at h
  split at h
  · exact ⟨(Option.some.inj h).symm, by assumption⟩
  · exact absurd h (by simp)

theorem checkedAdd128_some {a b c : Nat} (h : checkedAdd128 a b = some c) :
    c = a + b ∧ a + b < 2 ^ 128 := by
  unfold checkedAdd128 at h
  split at h
  · exact ⟨(Option.some.inj h).symm, by assumption⟩
  · exact absurd h (by simp)

theorem checkedSub128_some {a b c : Nat} (h : checkedSub128 a b = some c) :
    c = a - b ∧ b ≤ a := by
  unfold checkedSub128 at h
  split at h
  · exact ⟨(Option.some.inj h).symm, by assumption⟩
  · exact absurd h (by simp)

theorem processInputs_error_kinds (verify : Nat → List Nat → Nat → Bool)
    (store : List (Nat × TransactionOutput)) (simple : List Nat) :
    ∀ (l : List TransactionInput) (t : Nat) (ms : List Nat) (e : String),
      processInputs verify store simple l t ms = .error e →
      e = "signature must be valid" ∨ e = "input value overflow" := by
  intro l
  induction l with
  | nil =>
    intro t ms e h
    exact absurd h (by simp [processInputs])
  | cons inp rest ih =>
    intro t ms e h
    simp only [processInputs] at h
    split at h
    · split at h
      · split at h
        · exact ih _ _ _ h
        · injection h with h2
          exact Or.inr h2.symm
      · injection h with h2
        exact Or.inl h2.symm
    · exact ih _ _ _ h

theorem processOutputs_error_kinds (H : List Nat → Nat)
    (store : List (Nat × TransactionOutput)) (txe : List Nat) :
    ∀ (l : List TransactionOutput) (i t : Nat) (acc : List Nat) (e : String),
      processOutputs H store txe l i t acc = .error e →
      e = "output value must be nonzero" ∨ e = "output index overflow" ∨
      e = "output already exists" ∨ e = "output value overflow" := by
  intro l
  induction l with
  | nil =>
    intro i t acc e h
    exact absurd h (by simp [processOutputs])
  | cons o rest ih =>
    intro i t acc e h
    simp only [processOutputs] at h
    split at h
    · split at h
      · injection h with h2
        exact Or.inr (Or.inl h2.symm)
      · split at h
        · injection h with h2
          exact Or.inr (Or.inr (Or.inl h2.symm))
        · split at h
          · exact ih _ _ _ _ h
          · injection h with h2
            exact Or.inr (Or.inr (Or.inr h2.symm))
    · injection h with h2
      exact Or.inl h2.symm

theorem processOutputs_ok_news (H : List Nat → Nat)
    (store : List (Nat × TransactionOutput)) (txe : List Nat) :
    ∀ (l : List TransactionOutput) (i t : Nat) (acc : List Nat) (T : Nat)
      (news : List Nat),
      processOutputs H store txe l i t acc = .ok (T, news) →
      news = acc ++ idsFromE H txe i l := by
  intro l
  induction l with
  | nil =>
    intro i t acc T news h
    simp only [processOutputs] at h
    injection h with h2
    rw [← (Prod.mk.injEq _ _ _ _).mp h2 |>.2, idsFromE_nil, List.append_nil]
  | cons o rest ih =>
    intro i t acc T news h
    simp only [processOutputs] at h
    by_cases hv : o.value > 0
    · rw [if_pos hv] at h
      cases hc64 : checkedAdd64 i 1 with
      | none =>
        simp only [hc64] at h
        exact absurd h (by simp)
      | some index1 =>
        simp only [hc64] at h
        by_cases hcont : storeContains store (H (encodePair txe i)) = true
        · rw [if_pos hcont] at h
          exact absurd h (by simp)
        · rw [if_neg hcont] at h
          cases hc128 : checkedAdd128 t o.value with
          | none =>
            simp only [hc128] at h
            exact absurd h (by simp)
          | some t1 =>
            simp only [hc128] at h
            have h64 := checkedAdd64_some hc64
            have hr := ih _ _ _ _ _ h
            rw [hr, h64.1, idsFromE_cons]
            simp [List.append_assoc]
    · rw [if_neg hv] at h
      exact absurd h (by simp)

theorem processOutputs_ok_len (H : List Nat → Nat)
    (store : List (Nat × TransactionOutput)) (txe : List Nat) :
    ∀ (l : List TransactionOutput) (i t : Nat) (acc : List Nat)
      (r : Nat × List Nat),
      processOutputs H store txe l i t acc = .ok r → l ≠ [] →
      i + l.length < 2 ^ 64 := by
  intro l
  induction l with
  | nil =>
    intro i t acc r _ hne
    exact absurd rfl hne
  | cons o rest ih =>
    intro i t acc r h _
    simp only [processOutputs] at h
    by_cases hv : o.value > 0
    · rw [if_pos hv] at h
      cases hc64 : checkedAdd64 i 1 with
      | none =>
        simp only [hc64] at h
        exact absurd h (by simp)
      | some index1 =>
        simp only [hc64] at h
        by_cases hcont : storeContains store (H (encodePair txe i)) = true
        · rw [if_pos hcont] at h
          exact absurd h (by simp)
        · rw [if_neg hcont] at h
          cases hc128 : checkedAdd128 t o.value with
          | none =>
            simp only [hc128] at h
            exact absurd h (by simp)
          | some t1 =>
            simp only [hc128] at h
            have h64 := checkedAdd64_some hc64
            by_cases hrest : rest = []
            · subst hrest
              simp only [List.length_cons, List.length_nil]
              omega
            · have hb := ih _ _ _ _ h hrest
              rw [h64.1] at hb
              simp only [List.length_cons]
              omega
    · rw [if_neg hv] at h
      exact absurd h (by simp)

theorem mintLoop_rewardTotal (H : List Nat → Nat) (share bn : Nat) :
    ∀ (l : List Nat) (s : LedgerState),
      (mintLoop H share bn l s).rewardTotal = s.rewardTotal := by
  intro l
  induction l with
  | nil => intro s; rfl
  | cons a rest ih =>
    intro s
    simp only [mintLoop]
    split
    · exact ih s
    · exact ih _

theorem mintLoop_preserves (H : List Nat → Nat) (share bn : Nat) :
    ∀ (l : List Nat) (s : LedgerState) (k : Nat) (o : TransactionOutput),
      storeGet s.utxoStore k = some o →
      storeGet (mintLoop H share bn l s).utxoStore k = some o := by
  intro l
  induction l with
  | nil => intro s k o hk; exact hk
  | cons a rest ih =>
    intro s k o hk
    simp only [mintLoop]
    by_cases hc :
        storeContains s.utxoStore
          (H (encodeOutputHeight { value := share, pub_key := a } bn)) = true
    · rw [if_pos hc]
      exact ih s k o hk
    · rw [if_neg hc]
      apply ih
      show storeGet (storeInsert s.utxoStore _ _) k = some o
      rw [storeGet_insert]
      split
      · rename_i hk2
        rw [hk2] at hk
        rw [storeContains, hk] at hc
        exact absurd rfl hc
      · exact hk

theorem mintLoop_mints (H : List Nat → Nat) (share bn : Nat) :
    ∀ (l : List Nat) (s : LedgerState),
      (∀ b, b ∈ l → storeGet s.utxoStore (mintId H share bn b) = none ∨
        storeGet s.utxoStore (mintId H share bn b)
          = some { value := share, pub_key := b }) →
      (∀ b c, b ∈ l → c ∈ l → mintId H share bn b = mintId H share bn c → b = c) →
      ∀ a, a ∈ l →
        storeGet (mintLoop H share bn l s).utxoStore (mintId H share bn a)
          = some { value := share, pub_key := a } := by
  intro l
  induction l with
  | nil => intro s _ _ a ha; exact absurd ha (List.not_mem_nil a)
  | cons a0 rest ih =>
    intro s hinv hinj a ha
    simp only [mintLoop, mintId] at hinv hinj ⊢
    by_cases hc :
        storeContains s.utxoStore
          (H (encodeOutputHeight { value := share, pub_key := a0 } bn)) = true
    · rw [if_pos hc]
      have hs0 : storeGet s.utxoStore
          (H (encodeOutputHeight { value := share, pub_key := a0 } bn))
          = some { value := share, pub_key := a0 } := by
        rcases hinv a0 (List.mem_cons_self a0 rest) with h0 | h0
        · rw [storeContains, h0] at hc
          exact absurd hc (by simp)
        · exact h0
      rcases List.mem_cons.mp ha with rfl | ha2
      · exact mintLoop_preserves H share bn rest s _ _ hs0
      · exact ih s (fun b hb => hinv b (List.mem_cons_of_mem a0 hb))
          (fun b c hb hc2 hbc => hinj b c (List.mem_cons_of_mem a0 hb)
            (List.mem_cons_of_mem a0 hc2) hbc) a ha2
    · rw [if_neg hc]
      have hga0 : storeGet
          (storeInsert s.utxoStore
            (H (encodeOutputHeight { value := share, pub_key := a0 } bn))
            { value := share, pub_key := a0 })
          (H (encodeOutputHeight { value := share, pub_key := a0 } bn))
          = some { value := share, pub_key := a0 } := by
        rw [storeGet_insert, if_pos rfl]
      have hinv1 : ∀ b, b ∈ rest →
          storeGet (storeInsert s.utxoStore
            (H (encodeOutputHeight { value := share, pub_key := a0 } bn))
            { value := share, pub_key := a0 })
            (H (encodeOutputHeight { value := share, pub_key := b } bn)) = none ∨
          storeGet (storeInsert s.utxoStore
            (H (encodeOutputHeight { value := share, pub_key := a0 } bn))
            { value := share, pub_key := a0 })
            (H (encodeOutputHeight { value := share, pub_key := b } bn))
            = some { value := share, pub_key := b } := by
        intro b hb
        rw [storeGet_insert]
        by_cases hbeq : H (encodeOutputHeight { value := share, pub_key := b } bn)
            = H (encodeOutputHeight { value := share, pub_key := a0 } bn)
        · have hb0 : b = a0 := hinj b a0 (List.mem_cons_of_mem a0 hb)
            (List.mem_cons_self a0 rest) hbeq
          subst hb0
          rw [if_pos hbeq]
          exact Or.inr rfl
        · rw [if_neg hbeq]
          exact hinv b (List.mem_cons_of_mem a0 hb)
      rcases List.mem_cons.mp ha with rfl | ha2
      · exact mintLoop_preserves H share bn rest _ _ _ hga0
      · exact ih _ (fun b hb => hinv1 b hb)
          (fun b c hb hc2 hbc => hinj b c (List.mem_cons_of_mem a0 hb)
            (List.mem_cons_of_mem a0 hc2) hbc) a ha2

theorem validate_ok_elim {H : List Nat → Nat} {verify : Nat → List Nat → Nat → Bool}
    {s : LedgerState} {tx : Transaction} {vt : ValidTransaction}
    (h : validate_transaction H verify s tx = .ok vt) :
    ∃ ti missing tout news,
      processInputs verify s.utxoStore (get_simple_transaction tx)
        tx.inputs 0 [] = .ok (ti, missing) ∧
      processOutputs H s.utxoStore (encodeTransaction tx)
        tx.outputs 0 0 [] = .ok (tout, news) ∧
      tx.inputs ≠ [] ∧ tx.outputs ≠ [] ∧
      vt.requires = missing ∧ vt.provides = news ∧
      ((missing = [] ∧ tout ≤ ti ∧ vt.priority = (ti - tout) % 2 ^ 64) ∨
       (missing ≠ [] ∧ vt.priority = 0)) := by
  unfold validate_transaction at h
  by_cases h1 : tx.inputs.isEmpty = true
  · rw [if_pos h1] at h
    exact absurd h (by simp)
  · rw [if_neg h1] at h
    by_cases h2 : tx.outputs.isEmpty = true
    · rw [if_pos h2] at h
      exact absurd h (by simp)
    · rw [if_neg h2] at h
      by_cases h3 : tx.inputs.dedup.length ≠ tx.inputs.length
      · rw [if_pos h3] at h
        exact absurd h (by simp)
      · rw [if_neg h3] at h
        by_cases h4 : tx.outputs.dedup.length ≠ tx.outputs.length
        · rw [if_pos h4] at h
          exact absurd h (by simp)
        · rw [if_neg h4] at h
          cases hpi : processInputs verify s.utxoStore (get_simple_transaction tx)
              tx.inputs 0 [] with
          | error e =>
            rw [hpi] at h
            exact absurd h (by simp)
          | ok p =>
            rw [hpi] at h
            obtain ⟨ti, missing⟩ := p
            cases hpo : processOutputs H s.utxoStore (encodeTransaction tx)
                tx.outputs 0 0 [] with
            | error e =>
              rw [hpo] at h
              exact absurd h (by simp)
            | ok q =>
              rw [hpo] at h
              obtain ⟨tout, news⟩ := q
              simp only [] at h
              have hin : tx.inputs ≠ [] := fun he => h1 (by simp [he])
              have hout : tx.outputs ≠ [] := fun he => h2 (by simp [he])
              by_cases hm : missing.isEmpty = true
              · rw [if_pos hm] at h
                by_cases hge : ti ≥ tout
                · rw [if_pos hge] at h
                  cases hcs : checkedSub128 ti tout with
                  | none =>
                    rw [hcs] at h
                    exact absurd h (by simp)
                  | some reward =>
                    rw [hcs] at h
                    have hrw := checkedSub128_some hcs
                    have hv := Except.ok.inj h
                    refine ⟨ti, missing, tout, news, rfl, rfl, hin, hout, ?_, ?_, ?_⟩
                    · rw [← hv]
                    · rw [← hv]
                    · left
                      refine ⟨List.isEmpty_iff.mp hm, hge, ?_⟩
                      rw [← hv]
                      show reward % 2 ^ 64 = (ti - tout) % 2 ^ 64
                      rw [hrw.1]
                · rw [if_neg hge] at h
                  exact absurd h (by simp)
              · rw [if_neg hm] at h
                have hv := Except.ok.inj h
                refine ⟨ti, missing, tout, news, rfl, rfl, hin, hout, ?_, ?_, ?_⟩
                · rw [← hv]
                · rw [← hv]
                · right
                  refine ⟨fun he => hm (by simp [he]), ?_⟩
                  rw [← hv]

/-! ## Claim theorems -/

/-- Claim C1 (code bug): a transaction referencing a nonexistent `out_point`
validates as Pending (`requires` nonempty), yet `spend` still commits it:
there is no `requires.is_empty` gate between `validate_transaction` and
`update_storage`, so on the concrete failing input the call succeeds and the
transaction's output is inserted into the previously empty UTXO map —
contradicting the claim that the ledger is left unchanged. -/
theorem c1_spend_commits_missing_input :
    (validate_transaction hashStub vTrue { utxoStore := [], rewardTotal := 0 }
        { inputs := [{ out_point := 5, sig_script := 7 }],
          outputs := [{ value := 1, pub_key := 9 }] }).map (fun vt => vt.requires)
      = Except.ok [5] ∧
    (spend hashStub vTrue { utxoStore := [], rewardTotal := 0 }
        { inputs := [{ out_point := 5, sig_script := 7 }],
          outputs := [{ value := 1, pub_key := 9 }] }).2 = none ∧
    (spend hashStub vTrue { utxoStore := [], rewardTotal := 0 }
        { inputs := [{ out_point := 5, sig_script := 7 }],
          outputs := [{ value := 1, pub_key := 9 }] }).1.utxoStore ≠ [] := by
  refine ⟨by rfl, by rfl, by decide⟩

/-- Claim C3 (code bug): `disperse_reward` on an empty authority set reaches
`checked_div(0)`, which is `None`, and the source then calls `.unwrap()` on
it — a panic, modelled here as the error "No authorities" — after
`RewardTotal::take()` has already drained the pool, instead of signalling a
non-fatal `DistributionSkipped` with no mutation as the claim requires. -/
theorem c3_empty_authorities_unwrap (H : List Nat → Nat) (bn : Nat) (s : LedgerState) :
    disperse_reward H [] bn s = .error ("No authorities") := rfl

/-- Claim C10: whenever validation rejects a transaction with any error, the
`spend` entry point surfaces exactly that error and returns the ledger state
unchanged — validation reads but never writes, and `update_storage` is not
reached. -/
theorem c10_rejected_leaves_ledger_unchanged (H : List Nat → Nat)
    (verify : Nat → List Nat → Nat → Bool) (s : LedgerState) (tx : Transaction)
    (e : String) (h : validate_transaction H verify s tx = .error e) :
    spend H verify s tx = (s, some e) := by
  unfold spend
  rw [h]

/-- Witness for C10 at a concrete rejected transaction (empty inputs). -/
theorem c10_rejected_witness :
    validate_transaction hashStub vTrue { utxoStore := [], rewardTotal := 0 }
      { inputs := [], outputs := [] } = Except.error ("no inputs") ∧
    spend hashStub vTrue { utxoStore := [], rewardTotal := 0 }
      { inputs := [], outputs := [] }
      = ({ utxoStore := [], rewardTotal := 0 }, some ("no inputs")) :=
  ⟨rfl, c10_rejected_leaves_ledger_unchanged hashStub vTrue
    { utxoStore := [], rewardTotal := 0 } { inputs := [], outputs := [] }
    ("no inputs") rfl⟩

/-- Counterexample to claim C2 as stated: with an unspent output of value
2^64 + 1 spent into an output of value 1, the transaction is FullyValid
(`requires = []`) and commits, the exact difference is 2^64, yet the reward
pool receives 2^64 % 2^64 = 0 because the u128 reward is truncated through
the u64 `priority` field of `ValidTransaction`. -/
theorem c2_reward_truncation_counterexample :
    (validate_transaction hashStub vTrue
        { utxoStore := [(5, { value := 2 ^ 64 + 1, pub_key := 2 })], rewardTotal := 0 }
        { inputs := [{ out_point := 5, sig_script := 7 }],
          outputs := [{ value := 1, pub_key := 9 }] }).map (fun vt => vt.requires)
      = Except.ok [] ∧
    (spend hashStub vTrue
        { utxoStore := [(5, { value := 2 ^ 64 + 1, pub_key := 2 })], rewardTotal := 0 }
        { inputs := [{ out_point := 5, sig_script := 7 }],
          outputs := [{ value := 1, pub_key := 9 }] }).2 = none ∧
    (2 ^ 64 + 1) - 1 = 2 ^ 64 ∧
    (spend hashStub vTrue
        { utxoStore := [(5, { value := 2 ^ 64 + 1, pub_key := 2 })], rewardTotal := 0 }
        { inputs := [{ out_point := 5, sig_script := 7 }],
          outputs := [{ value := 1, pub_key := 9 }] }).1.rewardTotal ≠ 0 + 2 ^ 64 := by
  refine ⟨by rfl, by rfl, by decide, by decide⟩

/-- Claim C2 (amended): for a transaction accepted as FullyValid (all inputs
present, so the input loop returns an empty missing list) and committed by
`spend`, conservation holds (`total_output ≤ total_input`) and the amount
added to the reward pool equals `(total_input − total_output) % 2^64` — the
checked u128 difference truncated through the u64 `priority` field; it
equals the exact difference whenever that difference is below 2^64. -/
theorem c2_committed_reward_is_difference_mod_u64
    (H : List Nat → Nat) (verify : Nat → List Nat → Nat → Bool)
    (s : LedgerState) (tx : Transaction) (vt : ValidTransaction)
    (ti tout : Nat) (news : List Nat) (s1 : LedgerState)
    (hpi : processInputs verify s.utxoStore (get_simple_transaction tx)
      tx.inputs 0 [] = .ok (ti, []))
    (hpo : processOutputs H s.utxoStore (encodeTransaction tx)
      tx.outputs 0 0 [] = .ok (tout, news))
    (hv : validate_transaction H verify s tx = .ok vt)
    (hs : spend H verify s tx = (s1, none)) :
    tout ≤ ti ∧ s1.rewardTotal = s.rewardTotal + (ti - tout) % 2 ^ 64 ∧
    (ti - tout < 2 ^ 64 → s1.rewardTotal = s.rewardTotal + (ti - tout)) := by
  obtain ⟨ti2, missing2, tout2, news2, hpi2, hpo2, _, hout, hreq, hprov, hcase⟩ :=
    validate_ok_elim hv
  have hpieq : (ti2, missing2) = (ti, ([] : List Nat)) :=
    Except.ok.inj (hpi2.symm.trans hpi)
  have hpoeq : (tout2, news2) = (tout, news) :=
    Except.ok.inj (hpo2.symm.trans hpo)
  have hti : ti2 = ti := (Prod.mk.injEq _ _ _ _).mp hpieq |>.1
  have hmiss : missing2 = [] := (Prod.mk.injEq _ _ _ _).mp hpieq |>.2
  have htout : tout2 = tout := (Prod.mk.injEq _ _ _ _).mp hpoeq |>.1
  rcases hcase with ⟨_, hle, hprio⟩ | ⟨hne, _⟩
  · rw [hti, htout] at hle
    rw [hti, htout] at hprio
    have hle2 : tout ≤ ti := hle
    unfold spend at hs
    simp only [hv] at hs
    unfold update_storage at hs
    cases hca : checkedAdd128 s.rewardTotal vt.priority with
    | none =>
      simp only [hca] at hs
      exact absurd (congrArg Prod.snd hs) (by simp)
    | some nt =>
      simp only [hca] at hs
      have hslfst : (insertLoop H tx
          { utxoStore := tx.inputs.foldl (fun m i => storeRemove m i.out_point) s.utxoStore,
            rewardTotal := nt } 0 tx.outputs).1 = s1 := congrArg Prod.fst hs
      have hrt : s1.rewardTotal = nt := by
        rw [← hslfst, insertLoop_rewardTotal]
      have hnt : nt = s.rewardTotal + vt.priority := (checkedAdd128_some hca).1
      refine ⟨hle2, ?_, ?_⟩
      · rw [hrt, hnt, hprio]
      · intro hsmall
        rw [hrt, hnt, hprio, Nat.mod_eq_of_lt hsmall]
  · exact absurd hmiss hne

/-- Witness for the amended C2 on a concrete FullyValid commit: spending an
unspent output of value 100 into an output of value 1 adds (100 − 1) % 2^64
= 99 to the reward pool. -/
theorem c2_committed_reward_witness :
    (1 : Nat) ≤ 100 ∧
    (spend hashStub vTrue
        { utxoStore := [(5, { value := 100, pub_key := 2 })], rewardTotal := 0 }
        { inputs := [{ out_point := 5, sig_script := 7 }],
          outputs := [{ value := 1, pub_key := 9 }] }).1.rewardTotal
      = 0 + (100 - 1) % 2 ^ 64 := by
  have h := c2_committed_reward_is_difference_mod_u64 hashStub vTrue
    { utxoStore := [(5, { value := 100, pub_key := 2 })], rewardTotal := 0 }
    { inputs := [{ out_point := 5, sig_script := 7 }],
      outputs := [{ value := 1, pub_key := 9 }] }
    { requires := [], provides := [hashStub (encodePair (encodeTransaction
        { inputs := [{ out_point := 5, sig_script := 7 }],
          outputs := [{ value := 1, pub_key := 9 }] }) 0)],
      priority := 99, longevity := 2 ^ 64 - 1, propagate := true }
    100 1 [hashStub (encodePair (encodeTransaction
        { inputs := [{ out_point := 5, sig_script := 7 }],
          outputs := [{ value := 1, pub_key := 9 }] }) 0)]
    (spend hashStub vTrue
        { utxoStore := [(5, { value := 100, pub_key := 2 })], rewardTotal := 0 }
        { inputs := [{ out_point := 5, sig_script := 7 }],
          outputs := [{ value := 1, pub_key := 9 }] }).1
    (by rfl) (by rfl) (by rfl) (by rfl)
  exact ⟨h.1, h.2.1⟩

/-- Claim C4: a transaction whose two inputs share one `out_point` but carry
different `sig_script` values passes the duplicate-input check (the BTreeMap
key is the full `(out_point, sig_script)` pair, so the deduplicated length
still equals the input count), and when that `out_point` is present in the
ledger and both signatures verify, the input loop adds the referenced
output's value once per input, totalling twice the single unspent value. -/
theorem c4_duplicate_outpoint_counted_twice
    (verify : Nat → List Nat → Nat → Bool)
    (s : LedgerState) (op g1 g2 : Nat) (out : TransactionOutput)
    (outs : List TransactionOutput)
    (hne : g1 ≠ g2)
    (hget : storeGet s.utxoStore op = some out)
    (hv1 : verify g1 (get_simple_transaction
      { inputs := [{ out_point := op, sig_script := g1 },
                   { out_point := op, sig_script := g2 }], outputs := outs })
      out.pub_key = true)
    (hv2 : verify g2 (get_simple_transaction
      { inputs := [{ out_point := op, sig_script := g1 },
                   { out_point := op, sig_script := g2 }], outputs := outs })
      out.pub_key = true)
    (hov : out.value + out.value < 2 ^ 128) :
    (Transaction.inputs { inputs := [{ out_point := op, sig_script := g1 },
        { out_point := op, sig_script := g2 }], outputs := outs }).dedup.length
      = (Transaction.inputs { inputs := [{ out_point := op, sig_script := g1 },
        { out_point := op, sig_script := g2 }], outputs := outs }).length ∧
    processInputs verify s.utxoStore (get_simple_transaction
      { inputs := [{ out_point := op, sig_script := g1 },
                   { out_point := op, sig_script := g2 }], outputs := outs })
      [{ out_point := op, sig_script := g1 }, { out_point := op, sig_script := g2 }]
      0 [] = .ok (out.value + out.value, []) := by
  have hiv : out.value < 2 ^ 128 := by omega
  constructor
  · rw [dedup_length_eq_iff]
    simp [List.nodup_cons, TransactionInput.mk.injEq, hne]
  · simp only [processInputs, hget, hv1, hv2, if_true, checkedAdd128]
    rw [if_pos (show 0 + out.value < 2 ^ 128 by omega)]
    have h2 : (0 : Nat) + out.value + out.value < 2 ^ 128 := by omega
    simp [h2]
    split
    · rename_i t heq
      rw [if_pos (show out.value + out.value
        < 340282366920938463463374607431768211456 by omega)] at heq
      injection heq with ht
      rw [← ht]
    · rename_i heq
      rw [if_pos (show out.value + out.value
        < 340282366920938463463374607431768211456 by omega)] at heq
      cases heq

/-- Witness for C4: an unspent output of value 4 referenced by two inputs
with signatures 7 and 8 is counted as total input 8. -/
theorem c4_duplicate_outpoint_witness :
    (7 : Nat) ≠ 8 ∧
    processInputs vTrue [(5, { value := 4, pub_key := 2 })]
      (get_simple_transaction
        { inputs := [{ out_point := 5, sig_script := 7 },
                     { out_point := 5, sig_script := 8 }],
          outputs := [{ value := 1, pub_key := 9 }] })
      [{ out_point := 5, sig_script := 7 }, { out_point := 5, sig_script := 8 }]
      0 [] = .ok (8, []) := by
  have h := c4_duplicate_outpoint_counted_twice vTrue
    { utxoStore := [(5, { value := 4, pub_key := 2 })], rewardTotal := 0 }
    5 7 8 { value := 4, pub_key := 2 } [{ value := 1, pub_key := 9 }]
    (by decide) (by rfl) (by rfl) (by rfl) (by decide)
  exact ⟨by decide, h.2⟩


theorem update_storage_eq (H : List Nat → Nat) (s : LedgerState) (tx : Transaction)
    (r nt : Nat) (hca : checkedAdd128 s.rewardTotal r = some nt) :
    update_storage H s tx r
      = insertLoop H tx
          { utxoStore := tx.inputs.foldl (fun m i => storeRemove m i.out_point) s.utxoStore,
            rewardTotal := nt } 0 tx.outputs := by
  unfold update_storage
  rw [hca]

theorem c5_index_overflow_partial_commit :
    (update_storage hashStub { utxoStore := [], rewardTotal := 0 }
        { inputs := [],
          outputs := List.replicate (2 ^ 64) { value := 1, pub_key := 2 } } 5).2
      = some ("output index overflow") ∧
    (update_storage hashStub { utxoStore := [], rewardTotal := 0 }
        { inputs := [],
          outputs := List.replicate (2 ^ 64) { value := 1, pub_key := 2 } } 5).1.rewardTotal
      = 5 ∧
    (5 : Nat) ≠ 0 := by
  have hred := update_storage_eq hashStub { utxoStore := [], rewardTotal := 0 }
    { inputs := [],
      outputs := List.replicate (2 ^ 64) { value := 1, pub_key := 2 } } 5 5
    (by norm_num [checkedAdd128])
  have hne : List.replicate (2 ^ 64) ({ value := 1, pub_key := 2 } : TransactionOutput)
      ≠ [] := by
    intro he
    have h0 := congrArg List.length he
    simp only [List.length_replicate, List.length_nil] at h0
    omega
  have hlen : 2 ^ 64 ≤ 0 + (List.replicate (2 ^ 64)
      ({ value := 1, pub_key := 2 } : TransactionOutput)).length := by
    simp only [List.length_replicate]
    omega
  rw [show Transaction.outputs (Transaction.mk []
        (List.replicate (2 ^ 64) { value := 1, pub_key := 2 }))
      = List.replicate (2 ^ 64) ({ value := 1, pub_key := 2 } : TransactionOutput)
      from rfl] at hred
  refine ⟨?_, ?_, by omega⟩
  · rw [hred]
    exact insertLoop_error _ _ _ _ hne hlen
  · rw [hred, insertLoop_rewardTotal]

/-- Claim C5 (amended): for any transaction with fewer than 2^64 outputs —
every transaction validation can accept — `update_storage` is all-or-nothing:
the only reachable error is the reward-pool overflow of the initial checked
addition, which precedes all writes, so an error return implies the state is
exactly the input state; the remaining error path (u64 output-index
overflow) requires at least 2^64 outputs. -/
theorem c5_error_implies_unchanged
    (H : List Nat → Nat) (s : LedgerState) (tx : Transaction) (r : Nat)
    (s1 : LedgerState) (e : String)
    (hlen : tx.outputs.length < 2 ^ 64)
    (h : update_storage H s tx r = (s1, some e)) :
    s1 = s ∧ e = "reward overflow" ∧ 2 ^ 128 ≤ s.rewardTotal + r := by
  unfold update_storage at h
  cases hca : checkedAdd128 s.rewardTotal r with
  | none =>
    simp only [hca] at h
    have h1 : s = s1 := congrArg Prod.fst h
    have h2 : (some "reward overflow" : Option String) = some e := congrArg Prod.snd h
    refine ⟨h1.symm, (Option.some.inj h2).symm, ?_⟩
    unfold checkedAdd128 at hca
    split at hca
    · exact absurd hca (by simp)
    · omega
  | some nt =>
    simp only [hca] at h
    rw [insertLoop_ok tx tx.outputs 0 _ (by omega)] at h
    have h2 := congrArg Prod.snd h
    exact absurd h2 (by simp)

/-- Witness for the amended C5: a reward addition that overflows the u128
pool aborts with the state unchanged. -/
theorem c5_error_implies_unchanged_witness :
    update_storage hashStub { utxoStore := [], rewardTotal := 2 ^ 128 - 1 }
      { inputs := [], outputs := [{ value := 1, pub_key := 2 }] } 1
      = ({ utxoStore := [], rewardTotal := 2 ^ 128 - 1 }, some ("reward overflow")) ∧
    2 ^ 128 ≤ (2 ^ 128 - 1) + 1 := by
  have h : update_storage hashStub { utxoStore := [], rewardTotal := 2 ^ 128 - 1 }
      { inputs := [], outputs := [{ value := 1, pub_key := 2 }] } 1
      = ({ utxoStore := [], rewardTotal := 2 ^ 128 - 1 }, some ("reward overflow")) := rfl
  have h2 := c5_error_implies_unchanged hashStub
    { utxoStore := [], rewardTotal := 2 ^ 128 - 1 }
    { inputs := [], outputs := [{ value := 1, pub_key := 2 }] } 1
    { utxoStore := [], rewardTotal := 2 ^ 128 - 1 } ("reward overflow")
    (by decide) h
  exact ⟨h, h2.2.2⟩

/-- Claim C6: for a non-empty authority set and a drained pool value R with
share = R div n > 0, `disperse_reward` succeeds, writes the remainder
R − share·n back into the reward pool, and — when the minted ids
hash((share, authority), block_height) are fresh and pairwise distinct —
inserts an output of value `share` owned by each authority at its id; an
already-taken id merely skips that authority's mint without failing. -/
theorem c6_reward_distribution (H : List Nat → Nat) (auths : List Nat) (bn : Nat)
    (s : LedgerState) (hne : auths ≠ [])
    (hsh : 0 < s.rewardTotal / auths.length) :
    ∃ s2, disperse_reward H auths bn s = .ok s2 ∧
      s2.rewardTotal
        = s.rewardTotal - s.rewardTotal / auths.length * auths.length ∧
      ((∀ b, b ∈ auths →
          storeGet s.utxoStore (mintId H (s.rewardTotal / auths.length) bn b) = none) →
       (∀ b c, b ∈ auths → c ∈ auths →
          mintId H (s.rewardTotal / auths.length) bn b
            = mintId H (s.rewardTotal / auths.length) bn c → b = c) →
       ∀ a, a ∈ auths →
         storeGet s2.utxoStore (mintId H (s.rewardTotal / auths.length) bn a)
           = some { value := s.rewardTotal / auths.length, pub_key := a }) := by
  have hlen : auths.length ≠ 0 := fun h0 => hne (List.length_eq_zero.mp h0)
  have hshne : s.rewardTotal / auths.length ≠ 0 := Nat.pos_iff_ne_zero.mp hsh
  unfold disperse_reward
  simp only [checkedDiv128, if_neg hlen, if_neg hshne, checkedSub128,
    if_pos (Nat.div_mul_le_self s.rewardTotal auths.length)]
  refine ⟨_, rfl, ?_, ?_⟩
  · rw [mintLoop_rewardTotal]
  · intro hfresh hinj a ha
    exact mintLoop_mints H (s.rewardTotal / auths.length) bn auths
      (LedgerState.mk s.utxoStore
        (s.rewardTotal - s.rewardTotal / auths.length * auths.length))
      (fun b hb => Or.inl (hfresh b hb)) hinj a ha

/-- Witness for C6 at scenario E: 3 authorities and a pooled reward of 10
give share 3; each authority receives an output of value 3 and the pool
afterwards holds the remainder 1. -/
theorem c6_reward_distribution_witness :
    disperse_reward hashStub [1, 2, 3] 0 { utxoStore := [], rewardTotal := 10 }
      = Except.ok (mintLoop hashStub 3 0 [1, 2, 3]
          { utxoStore := [], rewardTotal := 1 }) ∧
    (mintLoop hashStub 3 0 [1, 2, 3]
        { utxoStore := [], rewardTotal := 1 }).rewardTotal = 1 ∧
    storeGet (mintLoop hashStub 3 0 [1, 2, 3]
        { utxoStore := [], rewardTotal := 1 }).utxoStore (mintId hashStub 3 0 2)
      = some { value := 3, pub_key := 2 } := by
  obtain ⟨s2, hok, hrt, hmint⟩ := c6_reward_distribution hashStub [1, 2, 3] 0
    { utxoStore := [], rewardTotal := 10 } (by decide) (by decide)
  have hev : disperse_reward hashStub [1, 2, 3] 0 { utxoStore := [], rewardTotal := 10 }
      = Except.ok (mintLoop hashStub 3 0 [1, 2, 3]
          { utxoStore := [], rewardTotal := 1 }) := rfl
  have hs2 : s2 = mintLoop hashStub 3 0 [1, 2, 3] { utxoStore := [], rewardTotal := 1 } :=
    (Except.ok.inj (hev.symm.trans hok)).symm
  refine ⟨hev, ?_, ?_⟩
  · rw [← hs2, hrt]
    decide
  · rw [← hs2]
    refine hmint ?_ ?_ 2 (by decide)
    · intro b hb
      rfl
    · intro b c hb hc hbc
      fin_cases hb <;> fin_cases hc <;>
        first
          | rfl
          | exact absurd hbc (by decide)

theorem genesisFold_lookup (H : List Nat → Nat) :
    ∀ (l : List TransactionOutput) (m : List (Nat × TransactionOutput))
      (seen : List TransactionOutput),
      (∀ u v, u ∈ seen ++ l → v ∈ seen ++ l →
        H (encodeOutput u) = H (encodeOutput v) → u = v) →
      (∀ id out, storeGet m id = some out ↔
        (out ∈ seen ∧ id = H (encodeOutput out))) →
      ∀ id out,
        storeGet (l.foldl (fun m2 u => storeInsert m2 (H (encodeOutput u)) u) m) id
          = some out ↔ (out ∈ seen ++ l ∧ id = H (encodeOutput out)) := by
  intro l
  induction l with
  | nil =>
    intro m seen hinj hm id out
    simp only [List.foldl_nil, List.append_nil]
    exact hm id out
  | cons u0 rest ih =>
    intro m seen hinj hm id out
    have hmemconv : ∀ w : TransactionOutput,
        w ∈ (seen ++ [u0]) ++ rest ↔ w ∈ seen ++ u0 :: rest := by
      intro w
      simp only [List.mem_append, List.mem_cons, List.mem_singleton]
      tauto
    have hm2 : ∀ id2 out2,
        storeGet (storeInsert m (H (encodeOutput u0)) u0) id2 = some out2 ↔
        (out2 ∈ seen ++ [u0] ∧ id2 = H (encodeOutput out2)) := by
      intro id2 out2
      rw [storeGet_insert]
      by_cases hid : id2 = H (encodeOutput u0)
      · rw [if_pos hid]
        constructor
        · intro hsome
          have he := Option.some.inj hsome
          subst he
          exact ⟨by simp, hid⟩
        · rintro ⟨hmem, hkey⟩
          have hmem2 : out2 ∈ seen ++ u0 :: rest := by
            simp only [List.mem_append, List.mem_cons, List.mem_singleton] at hmem ⊢
            tauto
          have hu0mem : u0 ∈ seen ++ u0 :: rest := by simp
          have he : out2 = u0 := hinj out2 u0 hmem2 hu0mem (hkey.symm.trans hid)
          subst he
          rfl
      · rw [if_neg hid]
        rw [hm id2 out2]
        constructor
        · rintro ⟨hmem, hk⟩
          refine ⟨?_, hk⟩
          simp only [List.mem_append, List.mem_singleton]
          exact Or.inl hmem
        · rintro ⟨hmem, hk⟩
          refine ⟨?_, hk⟩
          rcases List.mem_append.mp hmem with hmem | hmem
          · exact hmem
          · exfalso
            have he : out2 = u0 := List.mem_singleton.mp hmem
            subst he
            exact hid hk
    have hinj2 : ∀ u v, u ∈ (seen ++ [u0]) ++ rest → v ∈ (seen ++ [u0]) ++ rest →
        H (encodeOutput u) = H (encodeOutput v) → u = v := by
      intro u v hu hv heq
      exact hinj u v ((hmemconv u).mp hu) ((hmemconv v).mp hv) heq
    have hrec := ih (storeInsert m (H (encodeOutput u0)) u0) (seen ++ [u0]) hinj2 hm2 id out
    simp only [List.foldl_cons]
    rw [hrec]
    constructor
    · rintro ⟨hmem, hk⟩
      exact ⟨(hmemconv out).mp hmem, hk⟩
    · rintro ⟨hmem, hk⟩
      exact ⟨(hmemconv out).mpr hmem, hk⟩

/-- Claim C7: after genesis initialization the ledger holds exactly the
configured outputs, each stored under the hash of the output's own content
(`hash_of(&u)`, not a transaction encoding), and nothing else — stated as an
exact characterization of every lookup, under the (physically guaranteed)
assumption that the hash does not collide on the genesis outputs. -/
theorem c7_genesis_exact (H : List Nat → Nat) (genesis : List TransactionOutput)
    (hinj : ∀ u v, u ∈ genesis → v ∈ genesis →
      H (encodeOutput u) = H (encodeOutput v) → u = v) :
    ∀ id out, storeGet (initLedger H genesis).utxoStore id = some out ↔
      (out ∈ genesis ∧ id = H (encodeOutput out)) := by
  intro id out
  have h0 : ∀ id2 out2, storeGet ([] : List (Nat × TransactionOutput)) id2 = some out2 ↔
      (out2 ∈ ([] : List TransactionOutput) ∧ id2 = H (encodeOutput out2)) := by
    intro id2 out2
    simp [storeGet]
  have hinj0 : ∀ u v, u ∈ ([] : List TransactionOutput) ++ genesis →
      v ∈ ([] : List TransactionOutput) ++ genesis →
      H (encodeOutput u) = H (encodeOutput v) → u = v := by
    simpa using hinj
  have := genesisFold_lookup H genesis [] [] hinj0 h0 id out
  simpa using this

/-- Witness for C7: a two-output genesis configuration with distinct ids
stores the first output under the hash of its own encoding. -/
theorem c7_genesis_witness :
    storeGet (initLedger hashStub
        [{ value := 100, pub_key := 1 }, { value := 50, pub_key := 2 }]).utxoStore
      (hashStub (encodeOutput { value := 100, pub_key := 1 }))
      = some { value := 100, pub_key := 1 } := by
  refine (c7_genesis_exact hashStub
    [{ value := 100, pub_key := 1 }, { value := 50, pub_key := 2 }] ?_ _ _).mpr
    ⟨by decide, rfl⟩
  intro u v hu hv huv
  fin_cases hu <;> fin_cases hv <;>
    first
      | rfl
      | exact absurd huv (by decide)

/-- Claim C8: for a transaction that validates successfully, the ids
recorded into `provides` by the validation output loop and the ids at which
the commit loop of `update_storage` inserts the outputs agree: output `i`
lives at `hash(full transaction encoding (signatures included), i)` in both
places — `provides` equals `outputIds` and a successful commit inserts each
output at exactly those precomputed ids. -/
theorem c8_output_ids_agree (H : List Nat → Nat)
    (verify : Nat → List Nat → Nat → Bool) (s : LedgerState) (tx : Transaction)
    (vt : ValidTransaction) (h : validate_transaction H verify s tx = .ok vt) :
    vt.provides = outputIds H tx ∧
    ∀ (s2 : LedgerState) (r nt : Nat), checkedAdd128 s2.rewardTotal r = some nt →
      update_storage H s2 tx r
        = (LedgerState.mk
            (insertPairs
              (tx.inputs.foldl (fun m i => storeRemove m i.out_point) s2.utxoStore)
              (outputIds H tx) tx.outputs)
            nt,
           none) := by
  obtain ⟨ti, missing, tout, news, hpi, hpo, hin, hout, hreq, hprov, hcase⟩ :=
    validate_ok_elim h
  have hlen : 0 + tx.outputs.length < 2 ^ 64 :=
    processOutputs_ok_len H s.utxoStore (encodeTransaction tx) tx.outputs 0 0 []
      (tout, news) hpo hout
  constructor
  · rw [hprov]
    have hnews := processOutputs_ok_news H s.utxoStore (encodeTransaction tx)
      tx.outputs 0 0 [] tout news hpo
    rw [hnews]
    simp [outputIds]
  · intro s2 r nt hca
    rw [update_storage_eq H s2 tx r nt hca]
    rw [insertLoop_ok tx tx.outputs 0 _ (by omega)]
    rfl

/-- Witness for C8: a concrete accepted transaction's `provides` equals its
`outputIds`, and committing it inserts the single output at that id. -/
theorem c8_output_ids_witness :
    validate_transaction hashStub vTrue
      { utxoStore := [(5, { value := 100, pub_key := 2 })], rewardTotal := 0 }
      { inputs := [{ out_point := 5, sig_script := 7 }],
        outputs := [{ value := 1, pub_key := 9 }] }
      = Except.ok
          { requires := [],
            provides := outputIds hashStub
              { inputs := [{ out_point := 5, sig_script := 7 }],
                outputs := [{ value := 1, pub_key := 9 }] },
            priority := 99, longevity := 2 ^ 64 - 1, propagate := true } ∧
    update_storage hashStub
      { utxoStore := [(5, { value := 100, pub_key := 2 })], rewardTotal := 0 }
      { inputs := [{ out_point := 5, sig_script := 7 }],
        outputs := [{ value := 1, pub_key := 9 }] } 99
      = (LedgerState.mk
          (insertPairs
            ((Transaction.inputs
                { inputs := [{ out_point := 5, sig_script := 7 }],
                  outputs := [{ value := 1, pub_key := 9 }] }).foldl
              (fun m i => storeRemove m i.out_point)
              [(5, { value := 100, pub_key := 2 })])
            (outputIds hashStub
              { inputs := [{ out_point := 5, sig_script := 7 }],
                outputs := [{ value := 1, pub_key := 9 }] })
            (Transaction.outputs
              { inputs := [{ out_point := 5, sig_script := 7 }],
                outputs := [{ value := 1, pub_key := 9 }] }))
          99,
         none) := by
  have h1 : validate_transaction hashStub vTrue
      { utxoStore := [(5, { value := 100, pub_key := 2 })], rewardTotal := 0 }
      { inputs := [{ out_point := 5, sig_script := 7 }],
        outputs := [{ value := 1, pub_key := 9 }] }
      = Except.ok
          { requires := [],
            provides := outputIds hashStub
              { inputs := [{ out_point := 5, sig_script := 7 }],
                outputs := [{ value := 1, pub_key := 9 }] },
            priority := 99, longevity := 2 ^ 64 - 1, propagate := true } := by rfl
  refine ⟨h1, ?_⟩
  exact (c8_output_ids_agree hashStub vTrue
    { utxoStore := [(5, { value := 100, pub_key := 2 })], rewardTotal := 0 }
    { inputs := [{ out_point := 5, sig_script := 7 }],
      outputs := [{ value := 1, pub_key := 9 }] } _ h1).2
    { utxoStore := [(5, { value := 100, pub_key := 2 })], rewardTotal := 0 }
    99 99 (by rfl)

/-- Claim C9: `validate_transaction` rejects with the duplicate-input error
exactly when the transaction passed both emptiness checks and its inputs are
not pairwise distinct as full `(out_point, sig_script)` pairs, and with the
duplicate-output error exactly when additionally the inputs were distinct
and the outputs are not pairwise distinct as `(value, pub_key)` pairs; the
equivalences hold for every hash, verifier and ledger, showing the checks
run after the emptiness checks and before any signature, lookup or value
processing. -/
theorem c9_duplicate_check_iff (H : List Nat → Nat)
    (verify : Nat → List Nat → Nat → Bool) (s : LedgerState) (tx : Transaction) :
    (validate_transaction H verify s tx
        = .error ("each input must only be used once")
      ↔ tx.inputs ≠ [] ∧ tx.outputs ≠ [] ∧ ¬ tx.inputs.Nodup) ∧
    (validate_transaction H verify s tx
        = .error ("each output must only be used once")
      ↔ tx.inputs ≠ [] ∧ tx.outputs ≠ [] ∧ tx.inputs.Nodup ∧ ¬ tx.outputs.Nodup) := by
  unfold validate_transaction
  by_cases h1 : tx.inputs.isEmpty = true
  · have hnil : tx.inputs = [] := List.isEmpty_iff.mp h1
    rw [if_pos h1]
    constructor
    · constructor
      · intro he
        exact absurd (Except.error.inj he) (by decide)
      · rintro ⟨hne, -, -⟩
        exact absurd hnil hne
    · constructor
      · intro he
        exact absurd (Except.error.inj he) (by decide)
      · rintro ⟨hne, -, -⟩
        exact absurd hnil hne
  · rw [if_neg h1]
    have hin : tx.inputs ≠ [] := fun he => h1 (by simp [he])
    by_cases h2 : tx.outputs.isEmpty = true
    · have hnil : tx.outputs = [] := List.isEmpty_iff.mp h2
      rw [if_pos h2]
      constructor
      · constructor
        · intro he
          exact absurd (Except.error.inj he) (by decide)
        · rintro ⟨-, hne, -⟩
          exact absurd hnil hne
      · constructor
        · intro he
          exact absurd (Except.error.inj he) (by decide)
        · rintro ⟨-, hne, -⟩
          exact absurd hnil hne
    · rw [if_neg h2]
      have hout : tx.outputs ≠ [] := fun he => h2 (by simp [he])
      by_cases h3 : tx.inputs.dedup.length ≠ tx.inputs.length
      · rw [if_pos h3]
        have hnd : ¬ tx.inputs.Nodup := fun hn => h3 ((dedup_length_eq_iff _).mpr hn)
        constructor
        · constructor
          · intro _
            exact ⟨hin, hout, hnd⟩
          · intro _
            rfl
        · constructor
          · intro he
            exact absurd (Except.error.inj he) (by decide)
          · rintro ⟨-, -, hnodup, -⟩
            exact absurd hnodup hnd
      · rw [if_neg h3]
        have hnd : tx.inputs.Nodup := (dedup_length_eq_iff _).mp (not_ne_iff.mp h3)
        by_cases h4 : tx.outputs.dedup.length ≠ tx.outputs.length
        · rw [if_pos h4]
          have hnd4 : ¬ tx.outputs.Nodup := fun hn => h4 ((dedup_length_eq_iff _).mpr hn)
          constructor
          · constructor
            · intro he
              exact absurd (Except.error.inj he) (by decide)
            · rintro ⟨-, -, hn⟩
              exact absurd hnd hn
          · constructor
            · intro _
              exact ⟨hin, hout, hnd, hnd4⟩
            · intro _
              rfl
        · rw [if_neg h4]
          have hnd4 : tx.outputs.Nodup := (dedup_length_eq_iff _).mp (not_ne_iff.mp h4)
          cases hpi : processInputs verify s.utxoStore (get_simple_transaction tx)
              tx.inputs 0 [] with
          | error e =>
            simp only [hpi]
            have hk := processInputs_error_kinds verify s.utxoStore
              (get_simple_transaction tx) tx.inputs 0 [] e hpi
            constructor
            · constructor
              · intro he
                rcases hk with rfl | rfl <;>
                  exact absurd (Except.error.inj he) (by decide)
              · rintro ⟨-, -, hn⟩
                exact absurd hnd hn
            · constructor
              · intro he
                rcases hk with rfl | rfl <;>
                  exact absurd (Except.error.inj he) (by decide)
              · rintro ⟨-, -, -, hn⟩
                exact absurd hnd4 hn
          | ok p =>
            obtain ⟨ti, missing⟩ := p
            simp only [hpi]
            cases hpo : processOutputs H s.utxoStore (encodeTransaction tx)
                tx.outputs 0 0 [] with
            | error e =>
              simp only [hpo]
              have hk := processOutputs_error_kinds H s.utxoStore
                (encodeTransaction tx) tx.outputs 0 0 [] e hpo
              constructor
              · constructor
                · intro he
                  rcases hk with rfl | rfl | rfl | rfl <;>
                    exact absurd (Except.error.inj he) (by decide)
                · rintro ⟨-, -, hn⟩
                  exact absurd hnd hn
              · constructor
                · intro he
                  rcases hk with rfl | rfl | rfl | rfl <;>
                    exact absurd (Except.error.inj he) (by decide)
                · rintro ⟨-, -, -, hn⟩
                  exact absurd hnd4 hn
            | ok q =>
              obtain ⟨tout, news⟩ := q
              simp only [hpo]
              by_cases hm : missing.isEmpty = true
              · rw [if_pos hm]
                by_cases hge : ti ≥ tout
                · rw [if_pos hge]
                  cases hcs : checkedSub128 ti tout with
                  | none =>
                    simp only [hcs]
                    constructor
                    · constructor
                      · intro he
                        exact absurd (Except.error.inj he) (by decide)
                      · rintro ⟨-, -, hn⟩
                        exact absurd hnd hn
                    · constructor
                      · intro he
                        exact absurd (Except.error.inj he) (by decide)
                      · rintro ⟨-, -, -, hn⟩
                        exact absurd hnd4 hn
                  | some rw2 =>
                    simp only [hcs]
                    constructor
                    · constructor
                      · intro he
                        exact absurd he (by simp)
                      · rintro ⟨-, -, hn⟩
                        exact absurd hnd hn
                    · constructor
                      · intro he
                        exact absurd he (by simp)
                      · rintro ⟨-, -, -, hn⟩
                        exact absurd hnd4 hn
                · rw [if_neg hge]
                  constructor
                  · constructor
                    · intro he
                      exact absurd (Except.error.inj he) (by decide)
                    · rintro ⟨-, -, hn⟩
                      exact absurd hnd hn
                  · constructor
                    · intro he
                      exact absurd (Except.error.inj he) (by decide)
                    · rintro ⟨-, -, -, hn⟩
                      exact absurd hnd4 hn
              · rw [if_neg hm]
                constructor
                · constructor
                  · intro he
                    exact absurd he (by simp)
                  · rintro ⟨-, -, hn⟩
                    exact absurd hnd hn
                · constructor
                  · intro he
                    exact absurd he (by simp)
                  · rintro ⟨-, -, -, hn⟩
                    exact absurd hnd4 hn
